import Mathlib

/-!
Verification of the timetra activity-logging core against its source.

The development shallowly embeds the relevant parts of the program:

* `src/timetra/diary/utils.py` — the temporal expression parsers
  (`split_time`, `extract_date_time_bounds`, `normalize_group`, …);
* `src/timetra/storage.py` — the storage helpers (`get_prev_end_time`,
  `get_start_end`, `update_fact`);
* `src/timetra/cli/__init__.py` — the overlap reconciliation inside
  `log_activity` (the `overlaps` predicate, the classification of a single
  conflicting record, and the amend/add write paths).

Naive datetimes are modelled as integer seconds (`Int`); `timedelta`s as
integer seconds; `datetime.time` values as an hour/minute pair (the parse
paths only ever build times with zero seconds, and microseconds sit below
the granularity that the program's comparisons depend on, since
`parse_time_to_datetime` strips them explicitly).  Fallible code returns
`Except`; Python `assert`/`raise` become error values.
-/

set_option linter.unusedVariables false

namespace Timetra

/-- Activity record ("Fact") as read and written by the engine.  `end_time = none`
models an open (still running) record.  The `id` used by the storage layer is not
displayed and plays no role in the reconciliation logic, so it is omitted; a write
operation identifies the record it updates by carrying its full post-state. -/
structure Fact where
  activity : String
  category : String
  tags : List String
  description : String
  start_time : Int
  end_time : Option Int
deriving DecidableEq, Repr

/-- Overlap test from `log_activity` (src/timetra/cli/__init__.py, `overlaps`):
an open fact always counts as overlapping; a closed fact does not overlap when the
new interval starts at or after its end, or ends at or before its start. -/
def overlaps (fact : Fact) (start_time end_time : Int) : Bool :=
  match fact.end_time with
  | none => true
  | some fe => if start_time ≥ fe ∨ end_time ≤ fact.start_time then false else true

/-- A write issued to the external storage collaborator: either an update of an
existing record (carrying its full post-state) or the creation of a new one. -/
inductive WriteOp
  | update (f : Fact)
  | add (f : Fact)
deriving DecidableEq, Repr

/-- Keyword updates accepted by `storage.update_fact` via `**kwargs`/`setattr`.
`end_time = some none` models `update_fact(fact, end_time=None)` (re-opening a fact,
used by `punch_in --continued`).  The CLI also smuggles a `dry_run` key into these
kwargs; `setattr(fact, 'dry_run', …)` creates an attribute that is not a record
field, does not participate in the changed-field scan (`hasattr` is false before
the call) and does not gate the write, so it has no observable effect here. -/
structure FactKwargs where
  start_time : Option Int := none
  end_time : Option (Option Int) := none
  activity : Option String := none
  category : Option String := none
  description : Option String := none
  tags : Option (List String) := none
deriving DecidableEq, Repr

/-- The `setattr` loop of `storage.update_fact`: replace exactly the fields that
appear among the kwargs. -/
def applyKwargs (f : Fact) (k : FactKwargs) : Fact :=
  { activity := k.activity.getD f.activity
    category := k.category.getD f.category
    tags := k.tags.getD f.tags
    description := k.description.getD f.description
    start_time := k.start_time.getD f.start_time
    end_time := k.end_time.getD f.end_time }

/-- `utils.format_delta` with the default format `'{hours}:{minutes}'`:
Python's `timedelta.seconds` is the (floor-normalised) in-day remainder. -/
def format_delta (delta : Int) : String :=
  let secs := (Int.emod delta 86400).toNat
  toString (secs / 3600) ++ ":" ++ toString (secs % 3600 / 60)

/-- The note appended by `storage.update_fact` for `extra_description`:
`'{0}\n\n(+{1}) {2}'.format(fact.description or '', format_delta(delta), extra).strip()`. -/
def appendNote (description : String) (delta : Int) (extra : String) : String :=
  (description ++ "\n\n(+" ++ format_delta delta ++ ") " ++ extra).trim

/-- `storage.update_fact` (src/timetra/storage.py lines 170-183): applies the kwargs
with `setattr`, appends a timestamped note when a non-empty `extra_description` is
given, merges `extra_tags` as a set union (`list(set(fact.tags + extra_tags))`, here
`dedup` of the concatenation — Python's set order is immaterial at the set level),
and then unconditionally issues the storage write `hamster_storage.update_fact`.
Python truthiness: an empty string / empty list behaves like an absent argument.
Returns the mutated fact together with the writes issued to the collaborator. -/
def update_fact (f : Fact) (k : FactKwargs) (extra_tags : Option (List String))
    (extra_description : Option String) (now : Int) : Fact × List WriteOp :=
  let f1 := applyKwargs f k
  let f2 := match extra_description with
    | some d => if d ≠ "" then
        { f1 with description := appendNote f1.description (now - f1.start_time) d }
      else f1
    | none => f1
  let f3 := match extra_tags with
    | some ts => if ts ≠ [] then { f2 with tags := (f2.tags ++ ts).dedup } else f2
    | none => f2
  (f3, [WriteOp.update f3])

/-- Errors raised (as `CommandError`) by the storage helpers. -/
inductive CmdErr
  | cannotFindPrevious      -- 'Cannot find previous activity.'
  | anotherActivityRunning  -- 'Another activity is running.'
deriving DecidableEq, Repr

/-- `storage.get_prev_end_time` at `require=True` (its only call, from
`get_start_end`): raises when there is no previous fact, raises when the previous
fact is still open, otherwise returns the previous fact's end time. -/
def get_prev_end_time (prev : Option Fact) : Except CmdErr Int :=
  match prev with
  | none => .error .cannotFindPrevious
  | some p =>
    match p.end_time with
    | none => .error .anotherActivityRunning
    | some e => .ok e

/-- `storage.get_start_end` (src/timetra/storage.py lines 134-167): resolves
`(since, until, delta)` into the interval.  The previous fact's end time is fetched
up front with `require=True`, before any branch is examined; `now` is the current
instant.  Python truthiness: a zero `timedelta` is falsy, so `delta = some 0`
behaves exactly like an absent delta; `since`/`until` are datetimes here and a
datetime is always truthy. -/
def get_start_end (since untl delta : Option Int) (prev : Option Fact) (now : Int) :
    Except CmdErr (Int × Int) :=
  match get_prev_end_time prev with
  | .error e => .error e
  | .ok prevEnd =>
    match since, untl with
    | some s, some u => .ok (s, u)
    | some s, none =>
      match delta with
      | some d => if d ≠ 0 then .ok (s, s + d) else .ok (s, now)
      | none => .ok (s, now)
    | none, some u =>
      match delta with
      | some d => if d ≠ 0 then .ok (u - d, u) else .ok (prevEnd, u)
      | none => .ok (prevEnd, u)
    | none, none =>
      match delta with
      | some d => if d ≠ 0 then .ok (prevEnd, prevEnd + d) else .ok (prevEnd, now)
      | none => .ok (prevEnd, now)

/-- A raw bound fed to `normalize_group`: an absolute `datetime`, a clock
`time`-of-day (hour, minute — the parse path always builds seconds 0), or a signed
`timedelta` in seconds. -/
inductive TVal
  | dt (v : Int)
  | tod (hour minute : Nat)
  | dur (seconds : Int)
deriving DecidableEq, Repr

/-- Python 2 truthiness of a raw bound: absent is falsy, `time(0, 0)` is falsy,
a zero `timedelta` is falsy, any `datetime` is truthy. -/
def truthyTVal : Option TVal → Bool
  | none => false
  | some (.dt _) => true
  | some (.tod h m) => decide (¬(h = 0 ∧ m = 0))
  | some (.dur d) => decide (d ≠ 0)

/-- Failures of `normalize_group` (Python `assert`s and `TypeError`s). -/
inductive NormErr
  | missingAnchor       -- assert since or last
  | beforeLastFact      -- assert last <= since
  | unsupportedOperand  -- TypeError: None + timedelta, or Lazy + timedelta
  | emptyOrInverted     -- assert since < until
deriving DecidableEq, Repr

/-- `reftime.replace(hour=h, minute=m)` on an integer-seconds datetime: the date
and the second-within-minute of `reftime` are kept, the hour and the minute are
replaced. -/
def replaceHM (t : Int) (h m : Nat) : Int :=
  (Int.ediv t 86400) * 86400 + (h : Int) * 3600 + (m : Int) * 60 + Int.emod t 60

/-- Outcome of the since-resolution pass: either a resolved datetime or the
`Lazy` closure that `normalize_group` builds for a negative delta (to be applied
to `until` once the latter is known). -/
inductive SinceRes
  | val (v : Int)
  | lazy (d : Int)
deriving DecidableEq, Repr

/-- The comparison in `assert last <= since`.  In the calling application `last`
is a datetime; Python 2 orders `None` below every datetime, so an absent `last`
lets the assert pass. -/
def lastLe (last : Option Int) (s : Int) : Bool :=
  match last with
  | none => true
  | some l => decide (l ≤ s)

/-- Since-resolution branch of `utils.normalize_group`: a datetime is kept; a
clock time is anchored to today when it is before `now`'s time of day and to
yesterday otherwise, then checked against `last`; a non-negative delta is added
to `last` (`TypeError` if `last` is `None`); a negative delta becomes a `Lazy`
closure over the eventual `until`. -/
def resolveSince (last : Option Int) (now : Int) : TVal → Except NormErr SinceRes
  | .dt v => .ok (.val v)
  | .tod h m =>
    let sTod : Int := (h : Int) * 3600 + (m : Int) * 60
    let reftime := if sTod < Int.emod now 86400 then now else now - 86400
    let s := replaceHM reftime h m
    if lastLe last s then .ok (.val s) else .error .beforeLastFact
  | .dur d =>
    if d < 0 then .ok (.lazy d)
    else
      match last with
      | some l => .ok (.val (l + d))
      | none => .error .unsupportedOperand

/-- Until-resolution branch of `utils.normalize_group`: a datetime is kept; a
clock time is anchored to `now`'s date unconditionally (`now.replace(...)`); a
negative delta is added to `now`; a non-negative delta is added to the already
resolved `since` (`TypeError` if `since` is still the `Lazy` closure). -/
def resolveUntil (now : Int) (sres : SinceRes) : TVal → Except NormErr Int
  | .dt v => .ok v
  | .tod h m => .ok (replaceHM now h m)
  | .dur d =>
    if d < 0 then .ok (now + d)
    else
      match sres with
      | .val s => .ok (s + d)
      | .lazy _ => .error .unsupportedOperand

/-- The `if not since: since = last` default (a falsy `since` is replaced by the
`last` datetime; the no-`last` case is unreachable behind the assert). -/
def defaultSince (since : Option TVal) (last : Option Int) : TVal :=
  if truthyTVal since then since.getD (.dt 0)
  else
    match last with
    | some l => .dt l
    | none => .dt 0   -- unreachable: excluded by `assert since or last`

/-- The `if not until: until = now` default. -/
def defaultUntil (untl : Option TVal) (now : Int) : TVal :=
  if truthyTVal untl then untl.getD (.dt 0) else .dt now

/-- The tail of `normalize_group`: apply the pending `Lazy` closure (if any) to
the resolved `until`, then `assert since < until`. -/
def finishGroup (sres : SinceRes) (u : Int) : Except NormErr (Int × Int) :=
  match sres with
  | .val v => if v < u then .ok (v, u) else .error .emptyOrInverted
  | .lazy d => if u + d < u then .ok (u + d, u) else .error .emptyOrInverted

/-- `utils.normalize_group` (src/timetra/diary/utils.py lines 199-250).  The
second source assert (`until or now`) can never fire because `now` is a datetime
and hence truthy.  A falsy `since` defaults to `last`, a falsy `until` to `now`;
then both bounds are resolved, the pending `Lazy` closure is applied, and the
postcondition `since < until` is asserted. -/
def normalize_group (last : Option Int) (since untl : Option TVal) (now : Int) :
    Except NormErr (Int × Int) :=
  if ¬(truthyTVal since = true ∨ last.isSome = true) then .error .missingAnchor
  else
    match resolveSince last now (defaultSince since last) with
    | .error e => .error e
    | .ok sres =>
      match resolveUntil now sres (defaultUntil untl now) with
      | .error e => .error e
      | .ok u => finishGroup sres u

/-- Failures of the `log` command (`CommandError`s and early `yield failure(...)`
returns of `log_activity`). -/
inductive LogErr
  | noActivity        -- 'activity must be specified unless --amend is set'
  | cannotAmend       -- 'Cannot amend: no fact found'
  | sinceNotEarlier   -- '--since must be earlier than --until'
  | untilInFuture     -- '--until must not be in the future'
  | tooManyOverlaps   -- 'FAIL: too many overlapping facts'
  | wouldReplace      -- 'FAIL: new fact would replace an older one'
  | cancelled         -- 'Operation cancelled.'
  | nothingChanged    -- 'Nothing changed.'
deriving DecidableEq, Repr

/-- The range gate of `log_activity` (src/timetra/cli/__init__.py lines 243-247),
applied to the interval returned by `get_start_end`: it rejects `end < start` and
a future `end`, and nothing else. -/
def cli_range_check (start endt now : Int) : Except LogErr Unit :=
  if endt < start then .error .sinceNotEarlier
  else if now < endt then .error .untilInFuture
  else .ok ()

/-- The '@'-splitting path of `storage.parse_activity`: `"name@cat"` splits into
name and category; an empty mask defaults to `('work', no category)`.  The
fallback that queries the Hamster activity list by mask is external to the core
(and to the sources); a mask without exactly one '@' is carried through whole. -/
def parse_activity_mask (mask : String) : String × String :=
  if mask = "" then ("work", "")
  else
    match mask.splitOn "@" with
    | [a, c] => (a, c)
    | _ => (mask, "")

/-- The new record built by the add path of `log_activity`: the parsed activity
and category, the accumulated tag list, the optional description, and the
resolved interval `[start, end)` as a closed record. -/
def new_fact (args_activity : Option String) (args_description : Option String)
    (tags : List String) (start endt : Int) : Fact :=
  { activity := (parse_activity_mask (args_activity.getD "")).1
    category := (parse_activity_mask (args_activity.getD "")).2
    tags := tags
    description := args_description.getD ""
    start_time := start
    end_time := some endt }

/-- Arguments of the `log` command that the reconciliation logic reads.  `tags`
is the already-accumulated tag list (it always contains `'timetra-log'`, so it is
never empty). -/
structure LogArgs where
  activity : Option String
  amend : Bool
  dry_run : Bool
  description : Option String
  tags : List String
deriving DecidableEq, Repr

/-- Modelled from the spec: `storage.add_fact` is called by the CLI
(src/timetra/cli/__init__.py line 348) but its definition is not among the source
files — only this call site is.  Per spec §4.5 (steps 5-6), §4.6 and §5, once the
caller has confirmed, the truncation of the sole conflicting record
(`P.end_time := start`, all other fields untouched) and the insertion of the new
record `[start, end)` are applied together; in dry-run mode everything is computed
but no write is issued to the storage collaborator. -/
def add_fact_spec (args : LogArgs) (start endt : Int) (truncating : Option Fact) :
    List WriteOp :=
  if args.dry_run then []
  else
    (match truncating with
     | some p => [WriteOp.update { p with end_time := some start }]
     | none => []) ++
    [WriteOp.add (new_fact args.activity args.description args.tags start endt)]

/-- The kwargs assembled by the amend branch of `log_activity` (lines 307-318):
always the resolved start/end (and the `dry_run` flag, see `FactKwargs`); the
activity/category pair when an activity mask was given; the description when
non-empty; the tag list when non-empty (it always is, holding `'timetra-log'`). -/
def amendKwargs (args : LogArgs) (start endt : Int) : FactKwargs :=
  { start_time := some start
    end_time := some (some endt)
    activity := args.activity.map (fun m => (parse_activity_mask m).1)
    category := args.activity.map (fun m => (parse_activity_mask m).2)
    description :=
      match args.description with
      | some d => if d ≠ "" then some d else none
      | none => none
    tags := if args.tags ≠ [] then some args.tags else none }

/-- The changed-field scan of the amend branch (lines 320-342): a kwarg counts as
a change when the fact has that attribute and its current value differs.  The
`dry_run` kwarg is skipped (`hasattr(fact, 'dry_run')` is false). -/
def changedFields (f : Fact) (k : FactKwargs) : Bool :=
  (match k.start_time with | some v => decide (f.start_time ≠ v) | none => false) ||
  (match k.end_time with | some v => decide (f.end_time ≠ v) | none => false) ||
  (match k.activity with | some v => decide (f.activity ≠ v) | none => false) ||
  (match k.category with | some v => decide (f.category ≠ v) | none => false) ||
  (match k.description with | some v => decide (f.description ≠ v) | none => false) ||
  (match k.tags with | some v => decide (f.tags ≠ v) | none => false)

/-- The conflict set computed by `log_activity` (lines 250-263): today's facts
that overlap the resolved interval; when amending, the amendment target is
excluded (the source compares `unicode(f) == unicode(prev)`, i.e. rendered
fields, modelled as equality of the displayed record fields). -/
def overlap_list (args : LogArgs) (todays : List Fact) (prev : Option Fact)
    (start endt : Int) : List Fact :=
  let ov0 := todays.filter (fun f => overlaps f start endt)
  if args.amend then
    match prev with
    | some p => ov0.filter (fun f => decide (¬f = p))
    | none => ov0
  else ov0

/-- The write phase of `log_activity` (lines 300-356).  Amending re-fetches the
latest fact, scans for changed fields, and — when anything changed — calls
`storage.update_fact`, which issues the write unconditionally (it has no dry-run
branch).  The add path goes through `storage.add_fact` (see `add_fact_spec`). -/
def applyPhase (args : LogArgs) (start endt : Int) (prev : Option Fact)
    (truncating : Option Fact) (now : Int) : Except LogErr (List WriteOp) :=
  if args.amend then
    match prev with
    | none => .error .cannotAmend
    | some fact =>
      let k := amendKwargs args start endt
      if changedFields fact k then .ok (update_fact fact k none none now).2
      else .error .nothingChanged
  else .ok (add_fact_spec args start endt truncating)

/-- The reconciliation core of `log_activity` (src/timetra/cli/__init__.py lines
206-356), taking the already-resolved interval `[start, endt)`.  In source order:
the activity/amend argument checks, the range gate, the overlap scan, the
rejection of an ambiguous (>1) conflict set, the rejection of a single conflict
that the new interval would replace (`start <= overlap[0].start_time`), the
confirmation prompt gating the truncation, and finally the amend/add write phase.
An `.error` outcome carries no write operations: no mutation reaches the storage
collaborator on any rejected path. -/
def log_activity (args : LogArgs) (start endt : Int) (todays : List Fact)
    (prev : Option Fact) (confirm : Bool) (now : Int) : Except LogErr (List WriteOp) :=
  if args.activity = none ∧ args.amend = false then .error .noActivity
  else if args.amend = true ∧ prev = none then .error .cannotAmend
  else if endt < start then .error .sinceNotEarlier
  else if now < endt then .error .untilInFuture
  else
    match overlap_list args todays prev start endt with
    | [] => applyPhase args start endt prev none now
    | p0 :: rest =>
      if 1 < (p0 :: rest).length then .error .tooManyOverlaps
      else if start ≤ p0.start_time then .error .wouldReplace
      else if confirm = false then .error .cancelled
      else
        applyPhase args start endt prev
          (some ((p0 :: rest).getLast (List.cons_ne_nil p0 rest))) now

/-- Consume exactly `n` digit characters (`[0-9]{n}`). -/
def takeDigits : Nat → List Char → Option (List Char × List Char)
  | 0, cs => some ([], cs)
  | _ + 1, [] => none
  | n + 1, c :: cs =>
    if c.isDigit then
      match takeDigits n cs with
      | some (d, r) => some (c :: d, r)
      | none => none
    else none

/-- Consume the optional colon (`:?`): when the flag is set the head must be a
colon; otherwise nothing is consumed. -/
def matchColon (flag : Bool) (cs : List Char) : Option (List Char × List Char) :=
  if flag then
    match cs with
    | ':' :: rest => some ([':'], rest)
    | _ => none
  else some ([], cs)

/-- One backtracking alternative of the clock-time pattern
`[0-9]{0,2}:?[0-9]{1,2}`: `a` leading digits, colon present iff `flag`, `b`
trailing digits. -/
def matchTimeChoice (a : Nat) (flag : Bool) (b : Nat) (cs : List Char) :
    Option (List Char × List Char) :=
  match takeDigits a cs with
  | none => none
  | some (d1, r1) =>
    match matchColon flag r1 with
    | none => none
    | some (sep, r2) =>
      match takeDigits b r2 with
      | none => none
      | some (d2, r3) => some (d1 ++ sep ++ d2, r3)

/-- The alternatives of `[0-9]{0,2}:?[0-9]{1,2}` in the order a backtracking
(greedy, leftmost) matcher tries them. -/
def timeChoices : List (Nat × Bool × Nat) :=
  [(2, true, 2), (2, true, 1), (2, false, 2), (2, false, 1),
   (1, true, 2), (1, true, 1), (1, false, 2), (1, false, 1),
   (0, true, 2), (0, true, 1), (0, false, 2), (0, false, 1)]

/-- All prefix matches of the clock-time pattern, in backtracking priority
order, each as (consumed characters, remaining input). -/
def timeCands (cs : List Char) : List (List Char × List Char) :=
  timeChoices.filterMap (fun t => matchTimeChoice t.1 t.2.1 t.2.2 cs)

/-- Length of the maximal leading digit run (what `\d+` consumes greedily). -/
def digitRun : List Char → Nat
  | [] => 0
  | c :: cs => if c.isDigit then digitRun cs + 1 else 0

/-- The list `[m, m-1, …, 1]`: the lengths a greedy `\d+` tries, longest first. -/
def countdown (m : Nat) : List Nat :=
  (List.range m).map (fun k => m - k)

/-- All prefix matches of `[+-]\d+`, longest first. -/
def relCands (cs : List Char) : List (List Char × List Char) :=
  match cs with
  | [] => []
  | c :: rest =>
    if c = '+' ∨ c = '-' then
      (countdown (digitRun rest)).filterMap (fun n =>
        match takeDigits n rest with
        | some (d, r) => some (c :: d, r)
        | none => none)
    else []

/-- All prefix matches of the component alternation `time | rel`, the time
branch first (Python tries alternation branches left to right). -/
def compCands (cs : List Char) : List (List Char × List Char) :=
  timeCands cs ++ relCands cs

/-- Consume the `\.\.` separator. -/
def sepSplit : List Char → Option (List Char)
  | '.' :: '.' :: r => some r
  | _ => none

/-- All prefix matches of shape 1, `(?P<since>component)\.\.(?P<until>component)`,
as ((since text, until text), remaining input) in backtracking priority order. -/
def pattern1 (cs : List Char) : List ((List Char × List Char) × List Char) :=
  (compCands cs).flatMap (fun sr =>
    match sepSplit sr.2 with
    | some r2 => (compCands r2).map (fun ur => ((sr.1, ur.1), ur.2))
    | none => [])

/-- All prefix matches of `\+\d+`, longest first (the until part of shape 2). -/
def plusCands (cs : List Char) : List (List Char × List Char) :=
  match cs with
  | '+' :: rest =>
    (countdown (digitRun rest)).filterMap (fun n =>
      match takeDigits n rest with
      | some (d, r) => some ('+' :: d, r)
      | none => none)
  | _ => []

/-- All prefix matches of shape 2, the ultrashortcut
`(?P<since>time)(?P<until>\+\d+)`. -/
def pattern2 (cs : List Char) : List ((List Char × List Char) × List Char) :=
  (timeCands cs).flatMap (fun sr => (plusCands sr.2).map (fun ur => ((sr.1, ur.1), ur.2)))

/-- All prefix matches of shape 3, the ultrashortcut `(?P<since>[+-]\d+)`. -/
def pattern3 (cs : List Char) : List (List Char × List Char) :=
  relCands cs

/-- The group dictionary returned by `extract_date_time_bounds`: shape 3 has no
`until` group, so `groups.get('until')` yields `None` there. -/
structure Bounds where
  since : Option (List Char)
  untl : Option (List Char)
deriving DecidableEq, Repr

/-- The `ValueError` message raised when no shape matches. -/
def parse_error_msg (spec : List Char) : String :=
  "Could not parse \"" ++ String.mk spec ++ "\" to time bounds "

/-- `utils.extract_date_time_bounds` (src/timetra/diary/utils.py lines 165-183):
try the three shapes in order with `re.match` — which anchors at the start of the
input but not at its end — and return the group dictionary of the first shape
that matches a prefix; raise `ValueError` when none does. -/
def extract_date_time_bounds (spec : List Char) : Except String Bounds :=
  match pattern1 spec with
  | (su, _) :: _ => .ok { since := some su.1, untl := some su.2 }
  | [] =>
    match pattern2 spec with
    | (su, _) :: _ => .ok { since := some su.1, untl := some su.2 }
    | [] =>
      match pattern3 spec with
      | (s, _) :: _ => .ok { since := some s, untl := none }
      | [] => .error (parse_error_msg spec)

/-- The language of the clock-time pattern `[0-9]{0,2}:?[0-9]{1,2}`, described
structurally: up to two digits, an optional colon, then one or two digits. -/
def isTimeShape (p : List Char) : Prop :=
  ∃ a sep b : List Char,
    p = a ++ sep ++ b ∧ a.all Char.isDigit = true ∧ b.all Char.isDigit = true ∧
    a.length ≤ 2 ∧ 1 ≤ b.length ∧ b.length ≤ 2 ∧ (sep = [':'] ∨ sep = [])

/-- The language of the signed-relative pattern `[+-]\d+`. -/
def isRelShape (p : List Char) : Prop :=
  ∃ (c : Char) (d : List Char),
    p = c :: d ∧ (c = '+' ∨ c = '-') ∧ d.all Char.isDigit = true ∧ 1 ≤ d.length

/-- The language of shape 1: `component..component`. -/
def isShape1 (p : List Char) : Prop :=
  ∃ x y, p = x ++ '.' :: '.' :: y ∧ (isTimeShape x ∨ isRelShape x) ∧
    (isTimeShape y ∨ isRelShape y)

/-- The language of shape 2: a clock time immediately followed by `+\d+`. -/
def isShape2 (p : List Char) : Prop :=
  ∃ x d, p = x ++ '+' :: d ∧ isTimeShape x ∧ d.all Char.isDigit = true ∧ 1 ≤ d.length

/-- The language of shape 3: `[+-]\d+` alone. -/
def isShape3 (p : List Char) : Prop :=
  isRelShape p

/-- An open record used in concrete scenarios (an activity started at minute 780
and still running). -/
def openFactA : Fact :=
  { activity := "sleep", category := "", tags := [], description := ""
    start_time := 780, end_time := none }

/-- A closed record spanning (570, 720), used in concrete scenarios. -/
def closedFactA : Fact :=
  { activity := "work", category := "", tags := [], description := ""
    start_time := 570, end_time := some 720 }

/-- A closed record spanning (600, 660), used in concrete scenarios. -/
def closedFactB : Fact :=
  { activity := "mail", category := "", tags := [], description := ""
    start_time := 600, end_time := some 660 }

/-- A closed record spanning (100, 200), the amendment target of the dry-run
scenario. -/
def prevFactC2 : Fact :=
  { activity := "work", category := "", tags := [], description := ""
    start_time := 100, end_time := some 200 }

/-- Standard non-amend `log` arguments used in concrete scenarios. -/
def stdArgs : LogArgs :=
  { activity := some "work", amend := false, dry_run := false
    description := none, tags := ["timetra-log"] }

/-- Tag-merge helper: the set of tags after an `extra_tags` merge is the union of
the stored set and the extra set (in both the skip branch, where the extra list
is empty, and the merge branch). -/
theorem update_fact_tags_toFinset (f : Fact) (ts : List String) (now : Int) :
    ((update_fact f {} (some ts) none now).1.tags).toFinset =
      f.tags.toFinset ∪ ts.toFinset := by
  by_cases hts : ts = []
  · subst hts
    simp [update_fact, applyKwargs]
  · simp [update_fact, applyKwargs, hts]
    ext x
    simp [List.mem_dedup]

/-- Claim C9: merging extra tags yields exactly the set union of the stored tags
and the new tags (so no stored tag is ever dropped and duplicates collapse), and
the resulting set does not depend on the order in which merges are applied. -/
theorem C9_tag_merge_is_set_union :
    (∀ (f : Fact) (ts : List String) (now : Int),
        ((update_fact f {} (some ts) none now).1.tags).toFinset =
          f.tags.toFinset ∪ ts.toFinset)
    ∧ (∀ (f : Fact) (ts : List String) (now : Int),
        f.tags ⊆ (update_fact f {} (some ts) none now).1.tags)
    ∧ (∀ (f : Fact) (t : String) (ts : List String) (now : Int),
        ((update_fact f {} (some (t :: ts)) none now).1.tags).Nodup)
    ∧ ∀ (f : Fact) (a b : List String) (now : Int),
        ((update_fact (update_fact f {} (some a) none now).1 {} (some b) none now).1.tags).toFinset
          = ((update_fact (update_fact f {} (some b) none now).1 {} (some a) none now).1.tags).toFinset := by
  refine ⟨fun f ts now => update_fact_tags_toFinset f ts now, ?_, ?_, ?_⟩
  · intro f ts now x hx
    rw [← List.mem_toFinset, update_fact_tags_toFinset]
    exact Finset.mem_union_left _ (List.mem_toFinset.mpr hx)
  · intro f t ts now
    simp [update_fact, applyKwargs]
    exact List.nodup_dedup _
  · intro f a b now
    rw [update_fact_tags_toFinset, update_fact_tags_toFinset,
      update_fact_tags_toFinset, update_fact_tags_toFinset]
    rw [Finset.union_assoc, Finset.union_assoc, Finset.union_comm a.toFinset]

/-- Claim C8: a record overlaps the interval `[s, e)` iff it is open or
`s < end_time ∧ start_time < e`; consequently the set of overlapping records does
not depend on the order in which the day's records are scanned. -/
theorem C8_overlap_characterisation :
    (∀ (f : Fact) (s e : Int), overlaps f s e = true ↔
      (f.end_time = none ∨ ∃ fe, f.end_time = some fe ∧ s < fe ∧ f.start_time < e))
    ∧ ∀ (l₁ l₂ : List Fact) (s e : Int), l₁.Perm l₂ →
        ∀ f : Fact, f ∈ l₁.filter (fun g => overlaps g s e) ↔
          f ∈ l₂.filter (fun g => overlaps g s e) := by
  constructor
  · intro f s e
    cases hfe : f.end_time with
    | none => simp [overlaps, hfe]
    | some fe =>
      simp only [overlaps, hfe]
      constructor
      · intro h
        by_cases hc : s ≥ fe ∨ e ≤ f.start_time
        · simp [hc] at h
        · push_neg at hc
          exact Or.inr ⟨fe, rfl, hc.1, hc.2⟩
      · rintro (h | ⟨fe', hfe', h1, h2⟩)
        · exact absurd h (by simp)
        · injection hfe' with h3
          subst h3
          simp
          omega
  · intro l₁ l₂ s e hp f
    exact (hp.filter _).mem_iff

/-- Claim C8 witness: the order-independence component applied to a concrete
permutation. -/
theorem C8_overlap_characterisation_witness :
    openFactA ∈ List.filter (fun g => overlaps g 800 900) [openFactA, closedFactA] ↔
    openFactA ∈ List.filter (fun g => overlaps g 800 900) [closedFactA, openFactA] :=
  C8_overlap_characterisation.2 [openFactA, closedFactA] [closedFactA, openFactA]
    800 900 (List.Perm.swap closedFactA openFactA []) openFactA

/-- Claim C3 counterexample: both `since` and `until` are given as absolute
datetimes, no previous record exists — yet `get_start_end` fails instead of
returning `(since, until)`, because it fetches the previous fact's end time
(`require=True`) before examining any branch. -/
theorem C3_counterexample :
    get_start_end (some 100) (some 200) none none 300 =
      .error CmdErr.cannotFindPrevious := rfl

/-- Claim C3 (amended): the last-record anchor is required on every invocation of
`get_start_end`, even when both `since` and `until` are absolute: resolution
fails when no previous record exists, fails when the previous record is still
open, and returns `(since, until)` only when a closed previous record exists. -/
theorem C3_anchor_required_unconditionally :
    ∀ (s u : Int) (delta : Option Int) (now : Int),
      get_start_end (some s) (some u) delta none now = .error CmdErr.cannotFindPrevious
      ∧ (∀ p : Fact, p.end_time = none →
          get_start_end (some s) (some u) delta (some p) now =
            .error CmdErr.anotherActivityRunning)
      ∧ ∀ (p : Fact) (e : Int), p.end_time = some e →
          get_start_end (some s) (some u) delta (some p) now = .ok (s, u) := by
  intro s u delta now
  refine ⟨rfl, ?_, ?_⟩
  · intro p hp
    simp [get_start_end, get_prev_end_time, hp]
  · intro p e hp
    simp [get_start_end, get_prev_end_time, hp]

/-- Claim C3 witness: the amended claim applied at a concrete closed previous
record. -/
theorem C3_anchor_required_unconditionally_witness :
    closedFactA.end_time = some 720 ∧
    get_start_end (some 100) (some 200) none (some closedFactA) 900 = .ok (100, 200) :=
  ⟨rfl, (C3_anchor_required_unconditionally 100 200 none 900).2.2 closedFactA 720 rfl⟩

/-- Claim C4 counterexample: an empty interval (`start = end = 100`) is resolved
by `get_start_end` and then passes the log command's range gate silently — the
gate only rejects `end < start`, so `start >= end` does not always fail. -/
theorem C4_counterexample :
    get_start_end (some 100) (some 100) none (some closedFactA) 300 = .ok (100, 100)
    ∧ cli_range_check 100 100 300 = .ok () := ⟨rfl, rfl⟩

/-- The `finishGroup` stage only ever returns an interval that passed the
`since < until` assert. -/
theorem finishGroup_ok_lt (sres : SinceRes) (u s u' : Int)
    (h : finishGroup sres u = .ok (s, u')) : s < u' := by
  unfold finishGroup at h
  split at h
  · split at h
    · injection h with h1
      injection h1 with h2 h3
      omega
    · exact absurd h (by simp)
  · split at h
    · injection h with h1
      injection h1 with h2 h3
      omega
    · exact absurd h (by simp)

/-- Claim C4 (amended): `normalize_group` does enforce the postcondition — every
interval it returns satisfies `since < until`, anything else fails — but the log
command's own gate (`cli_range_check`, fed by `get_start_end`) rejects exactly
the inverted (`end < start`) and future intervals, so the empty interval
`start = end` passes it unrejected. -/
theorem C4_normalizer_rejects_cli_admits_empty :
    (∀ (last : Option Int) (since untl : Option TVal) (now s u : Int),
        normalize_group last since untl now = .ok (s, u) → s < u)
    ∧ ∀ (start endt now : Int),
        cli_range_check start endt now = .ok () ↔ start ≤ endt ∧ endt ≤ now := by
  constructor
  · intro last since untl now s u h
    unfold normalize_group at h
    split at h
    · exact absurd h (by simp)
    · split at h
      · exact absurd h (by simp)
      · split at h
        · exact absurd h (by simp)
        · exact finishGroup_ok_lt _ _ _ _ h
  · intro start endt now
    constructor
    · intro h
      by_cases h1 : endt < start
      · simp [cli_range_check, h1] at h
      · by_cases h2 : now < endt
        · simp [cli_range_check, h1, h2] at h
        · omega
    · intro hh
      have h1 : ¬(endt < start) := by omega
      have h2 : ¬(now < endt) := by omega
      simp [cli_range_check, h1, h2]

/-- Claim C4 witness: the amended claim applied at concrete inputs — a successful
normalisation implies strict ordering, and the gate accepts a well-ordered past
interval. -/
theorem C4_normalizer_rejects_cli_admits_empty_witness :
    normalize_group (some 0) (some (TVal.dt 10)) (some (TVal.dt 20)) 100 = .ok (10, 20)
    ∧ (10 : Int) < 20 :=
  ⟨rfl, C4_normalizer_rejects_cli_admits_empty.1 (some 0) (some (TVal.dt 10))
    (some (TVal.dt 20)) 100 10 20 rfl⟩

/-- Claim C2 (code bug): with `--amend --dry-run` and a changed start time the
operation still issues a write to the storage collaborator — the amend branch
calls `storage.update_fact`, which has no dry-run branch and unconditionally
calls `hamster_storage.update_fact` — even though the CLI then prints
"(Dry run, nothing changed.)" and the `--dry-run` help promises "do not alter
the database". -/
theorem C2_dry_run_still_writes :
    log_activity
        { activity := none, amend := true, dry_run := true, description := none,
          tags := ["timetra-log"] }
        150 200 [prevFactC2] (some prevFactC2) true 300 =
      .ok [WriteOp.update { prevFactC2 with start_time := 150, tags := ["timetra-log"] }] := by
  rfl

/-- Claim C6: whenever the conflict set computed for the day (the overlapping
records, excluding the amendment target when amending, as spec §4.5 defines it)
holds more than one record, the operation fails with the too-many-overlapping
error; the `.error` outcome carries no write operations, so no record is
mutated. -/
theorem C6_ambiguous_overlap_rejected :
    ∀ (args : LogArgs) (start endt now : Int) (todays : List Fact) (prev : Option Fact),
      ¬(args.activity = none ∧ args.amend = false) →
      ¬(args.amend = true ∧ prev = none) →
      ¬(endt < start) → ¬(now < endt) →
      1 < (overlap_list args todays prev start endt).length →
      ∀ confirm : Bool,
        log_activity args start endt todays prev confirm now = .error .tooManyOverlaps := by
  intro args start endt now todays prev h1 h2 h3 h4 hlen confirm
  unfold log_activity
  rw [if_neg h1, if_neg h2, if_neg h3, if_neg h4]
  cases hov : overlap_list args todays prev start endt with
  | nil => rw [hov] at hlen; simp at hlen
  | cons p0 rest =>
    rw [hov] at hlen
    simp only []
    rw [if_pos hlen]

/-- Claim C6 witness: two closed records of the day both overlap (580, 700); the
operation is rejected. -/
theorem C6_ambiguous_overlap_rejected_witness :
    log_activity stdArgs 580 700 [closedFactA, closedFactB] none true 800 =
      .error .tooManyOverlaps :=
  C6_ambiguous_overlap_rejected stdArgs 580 700 800 [closedFactA, closedFactB] none
    (by decide) (by decide) (by decide) (by decide) (by decide) true

/-- Claim C5: with exactly one record P in the conflict set, the operation
rejects with the would-replace error (mutating nothing — an `.error` outcome
carries no writes) when `start ≤ P.start_time`, and otherwise classifies the
conflict as a truncation: P is shortened to end at `start` and the new interval
is recorded — including when the new interval lies strictly inside P, whose
remainder after `end` is then lost. -/
theorem C5_single_overlap_classification :
    ∀ (args : LogArgs) (start endt now : Int) (todays : List Fact) (prev : Option Fact)
      (P : Fact),
      ¬(args.activity = none ∧ args.amend = false) →
      ¬(args.amend = true ∧ prev = none) →
      ¬(endt < start) → ¬(now < endt) →
      overlap_list args todays prev start endt = [P] →
      ((start ≤ P.start_time → ∀ confirm : Bool,
          log_activity args start endt todays prev confirm now = .error .wouldReplace)
       ∧ (P.start_time < start → args.amend = false → args.dry_run = false →
          log_activity args start endt todays prev true now =
            .ok [WriteOp.update { P with end_time := some start },
                 WriteOp.add (new_fact args.activity args.description args.tags start endt)])) := by
  intro args start endt now todays prev P h1 h2 h3 h4 hov
  constructor
  · intro hle confirm
    unfold log_activity
    rw [if_neg h1, if_neg h2, if_neg h3, if_neg h4, hov]
    simp only [List.length_cons, List.length_nil]
    rw [if_neg (by omega), if_pos hle]
  · intro hgt hamend hdry
    unfold log_activity
    rw [if_neg h1, if_neg h2, if_neg h3, if_neg h4, hov]
    simp only [List.length_cons, List.length_nil, List.getLast_singleton]
    rw [if_neg (by omega), if_neg (by omega)]
    simp [applyPhase, hamend, add_fact_spec, hdry]

/-- Claim C5 witness: the truncate branch at a new interval strictly inside the
single conflicting record — `closedFactA` spans (570, 720) and the new interval
is (600, 660): the record is truncated to end at 600 and its (660, 720)
remainder is not re-recorded. -/
theorem C5_single_overlap_classification_witness :
    log_activity stdArgs 600 660 [closedFactA] none true 800 =
      .ok [WriteOp.update { closedFactA with end_time := some 600 },
           WriteOp.add (new_fact (some "work") none ["timetra-log"] 600 660)] :=
  (C5_single_overlap_classification stdArgs 600 660 800 [closedFactA] none closedFactA
    (by decide) (by decide) (by decide) (by decide) (by decide)).2 (by decide) rfl rfl

/-- Claim C1: with exactly one record P in the conflict set and
`P.start_time < start`, once the caller confirms (and dry-run is off) the
operation truncates P — `end_time` becomes `start` while `start_time` and every
other field stay untouched — and records the new interval `[start, end)`.  The
apply step goes through `storage.add_fact`, which is not among the source files
and is modelled from the spec (`add_fact_spec`). -/
theorem C1_truncation_preserves_other_fields :
    ∀ (args : LogArgs) (start endt now : Int) (todays : List Fact) (prev : Option Fact)
      (P : Fact),
      args.amend = false → args.activity ≠ none → args.dry_run = false →
      ¬(endt < start) → ¬(now < endt) →
      overlap_list args todays prev start endt = [P] →
      P.start_time < start →
      (log_activity args start endt todays prev true now =
        .ok [WriteOp.update { P with end_time := some start },
             WriteOp.add (new_fact args.activity args.description args.tags start endt)])
      ∧ ({ P with end_time := some start }).end_time = some start
      ∧ ({ P with end_time := some start }).start_time = P.start_time
      ∧ ({ P with end_time := some start }).activity = P.activity
      ∧ ({ P with end_time := some start }).category = P.category
      ∧ ({ P with end_time := some start }).tags = P.tags
      ∧ ({ P with end_time := some start }).description = P.description
      ∧ (new_fact args.activity args.description args.tags start endt).start_time = start
      ∧ (new_fact args.activity args.description args.tags start endt).end_time = some endt := by
  intro args start endt now todays prev P hamend hact hdry h3 h4 hov hgt
  refine ⟨?_, rfl, rfl, rfl, rfl, rfl, rfl, rfl, rfl⟩
  unfold log_activity
  rw [if_neg (by simp [hact]), if_neg (by simp [hamend]), if_neg h3, if_neg h4, hov]
  simp only [List.length_cons, List.length_nil, List.getLast_singleton]
  rw [if_neg (by omega), if_neg (by omega)]
  simp [applyPhase, hamend, add_fact_spec, hdry]

/-- Claim C1 witness: the open record `openFactA` (started at 780) is the sole
conflict for the new interval (840, 930); it is truncated to end at 840 and the
new closed record is added. -/
theorem C1_truncation_preserves_other_fields_witness :
    log_activity stdArgs 840 930 [openFactA] none true 1000 =
      .ok [WriteOp.update { openFactA with end_time := some 840 },
           WriteOp.add (new_fact (some "work") none ["timetra-log"] 840 930)] :=
  (C1_truncation_preserves_other_fields stdArgs 840 930 1000 [openFactA] none openFactA
    rfl (by decide) rfl (by decide) (by decide) (by decide) (by decide)).1

/-- Claim C7 counterexample: `until` given as the clock time 23:00 with `now` at
20:30:00 of day 0 (73800s).  23:00 is not before `now`'s time of day, so the
claim requires anchoring to yesterday (day −1, i.e. −3600); the code instead
anchors `until` to today unconditionally (`now.replace(...)` = 82800). -/
theorem C7_counterexample :
    normalize_group (some 0) none (some (TVal.tod 23 0)) 73800 = .ok (0, 82800)
    ∧ ¬((23 : Int) * 3600 + (0 : Int) * 60 < Int.emod 73800 86400)
    ∧ replaceHM (73800 - 86400) 23 0 = -3600
    ∧ (82800 : Int) ≠ -3600 :=
  ⟨rfl, by decide, by decide, by decide⟩

/-- Claim C7 (amended): a `since` given as a clock time other than 0:00 is
anchored to today when it is strictly before `now`'s time of day and to
yesterday otherwise (including equality), and must then be no earlier than
`last` (else the operation is rejected as inconsistent); an `until` given as a
clock time other than 0:00 is always anchored to `now`'s date, never to
yesterday.  Midnight is the exception on both sides: Python 2 treats
`time(0, 0)` as falsy, so `if not since: since = last` / `if not until:
until = now` replace a 0:00 bound by `last` resp. `now` outright, and no
anchoring (and no `last <= since` check) happens at all. -/
theorem C7_clock_time_anchoring :
    ∀ (last now u : Int) (h m : Nat),
      ((¬(h = 0 ∧ m = 0) →
        (((h : Int) * 3600 + (m : Int) * 60 < Int.emod now 86400 →
            ((last ≤ replaceHM now h m →
                normalize_group (some last) (some (TVal.tod h m)) (some (TVal.dt u)) now =
                  if replaceHM now h m < u then .ok (replaceHM now h m, u)
                  else .error NormErr.emptyOrInverted)
             ∧ (replaceHM now h m < last →
                normalize_group (some last) (some (TVal.tod h m)) (some (TVal.dt u)) now =
                  .error NormErr.beforeLastFact)))
         ∧ (¬((h : Int) * 3600 + (m : Int) * 60 < Int.emod now 86400) →
            ((last ≤ replaceHM (now - 86400) h m →
                normalize_group (some last) (some (TVal.tod h m)) (some (TVal.dt u)) now =
                  if replaceHM (now - 86400) h m < u then
                    .ok (replaceHM (now - 86400) h m, u)
                  else .error NormErr.emptyOrInverted)
             ∧ (replaceHM (now - 86400) h m < last →
                normalize_group (some last) (some (TVal.tod h m)) (some (TVal.dt u)) now =
                  .error NormErr.beforeLastFact)))
         ∧ ∀ s : Int,
            normalize_group (some last) (some (TVal.dt s)) (some (TVal.tod h m)) now =
              if s < replaceHM now h m then .ok (s, replaceHM now h m)
              else .error NormErr.emptyOrInverted))
       ∧ (normalize_group (some last) (some (TVal.tod 0 0)) (some (TVal.dt u)) now =
            if last < u then .ok (last, u) else .error NormErr.emptyOrInverted)
       ∧ ∀ s : Int,
          normalize_group (some last) (some (TVal.dt s)) (some (TVal.tod 0 0)) now =
            if s < now then .ok (s, now) else .error NormErr.emptyOrInverted) := by
  intro last now u h m
  refine ⟨?_, ?_, ?_⟩
  · intro htruthy
    refine ⟨?_, ?_, ?_⟩
    · intro hcmp
      constructor
      · intro hle
        simp [normalize_group, truthyTVal, htruthy, defaultSince, defaultUntil,
          resolveSince, resolveUntil, lastLe, hcmp, hle, finishGroup]
      · intro hlt
        have hle : ¬(last ≤ replaceHM now h m) := by omega
        simp [normalize_group, truthyTVal, htruthy, defaultSince, defaultUntil,
          resolveSince, resolveUntil, lastLe, hcmp, hle]
    · intro hcmp
      constructor
      · intro hle
        simp [normalize_group, truthyTVal, htruthy, defaultSince, defaultUntil,
          resolveSince, resolveUntil, lastLe, hcmp, hle, finishGroup]
      · intro hlt
        have hle : ¬(last ≤ replaceHM (now - 86400) h m) := by omega
        simp [normalize_group, truthyTVal, htruthy, defaultSince, defaultUntil,
          resolveSince, resolveUntil, lastLe, hcmp, hle]
    · intro s
      simp [normalize_group, truthyTVal, htruthy, defaultSince, defaultUntil,
        resolveSince, resolveUntil, finishGroup]
  · simp [normalize_group, truthyTVal, defaultSince, defaultUntil,
      resolveSince, resolveUntil, finishGroup]
  · intro s
    simp [normalize_group, truthyTVal, defaultSince, defaultUntil,
      resolveSince, resolveUntil, finishGroup]

/-- Claim C7 witness: `since` as clock time 20:00 with `now` at 20:30:00 of day 0
(73800s) anchors to today (72000s), which is not before `last = 0`; and the
midnight exception at `last = 100`: a `since` of 0:00 is replaced by `last`
outright, yielding (100, 200) with no anchoring and no `last <= since` check. -/
theorem C7_clock_time_anchoring_witness :
    ¬((20 : Nat) = 0 ∧ (0 : Nat) = 0) ∧
    (normalize_group (some 0) (some (TVal.tod 20 0)) (some (TVal.dt 74000)) 73800 =
      if replaceHM 73800 20 0 < 74000 then .ok (replaceHM 73800 20 0, 74000)
      else .error NormErr.emptyOrInverted) ∧
    (normalize_group (some 100) (some (TVal.tod 0 0)) (some (TVal.dt 200)) 73800 =
      if (100 : Int) < 200 then .ok (100, 200) else .error NormErr.emptyOrInverted) :=
  ⟨by decide,
   (((C7_clock_time_anchoring 0 73800 74000 20 0).1 (by decide)).1 (by decide)).1 (by decide),
   (C7_clock_time_anchoring 100 73800 200 20 0).2.1⟩

/-- Soundness of `takeDigits`: a successful parse consumed exactly its result. -/
theorem takeDigits_sound :
    ∀ (n : Nat) (cs d r : List Char), takeDigits n cs = some (d, r) →
      cs = d ++ r ∧ d.length = n ∧ d.all Char.isDigit = true := by
  intro n
  induction n with
  | zero =>
    intro cs d r h
    simp only [takeDigits, Option.some.injEq, Prod.mk.injEq] at h
    obtain ⟨h1, h2⟩ := h
    subst h1
    subst h2
    simp
  | succ k ih =>
    intro cs d r h
    cases cs with
    | nil => simp [takeDigits] at h
    | cons c cs' =>
      simp only [takeDigits] at h
      by_cases hc : c.isDigit
      · rw [if_pos hc] at h
        cases htd : takeDigits k cs' with
        | none => rw [htd] at h; exact absurd h (by simp)
        | some dr =>
          obtain ⟨d', r'⟩ := dr
          rw [htd] at h
          injection h with h1
          injection h1 with h2 h3
          obtain ⟨hcs, hlen, hall⟩ := ih cs' d' r' htd
          subst h2
          subst h3
          refine ⟨by rw [hcs]; rfl, by simp [hlen], ?_⟩
          simp [hc, hall]
      · rw [if_neg hc] at h
        exact absurd h (by simp)

/-- Completeness of `takeDigits`: an all-digit block of the right length is
consumed whole, whatever follows it. -/
theorem takeDigits_complete :
    ∀ (d : List Char), d.all Char.isDigit = true →
      ∀ r : List Char, takeDigits d.length (d ++ r) = some (d, r) := by
  intro d
  induction d with
  | nil => intro _ r; rfl
  | cons c d' ih =>
    intro hall r
    simp only [List.all_cons, Bool.and_eq_true] at hall
    simp only [List.length_cons, List.cons_append, takeDigits, List.append_eq]
    rw [if_pos hall.1, ih hall.2 r]

/-- Soundness of `matchColon`. -/
theorem matchColon_sound (flag : Bool) (cs sep r : List Char)
    (h : matchColon flag cs = some (sep, r)) :
    cs = sep ++ r ∧ (sep = [':'] ∨ sep = []) := by
  cases flag with
  | false =>
    simp only [matchColon, if_neg, Bool.false_eq_true, ite_false,
      Option.some.injEq, Prod.mk.injEq] at h
    obtain ⟨h1, h2⟩ := h
    subst h1
    subst h2
    simp
  | true =>
    simp only [matchColon, if_pos] at h
    split at h
    · injection h with h1
      injection h1 with h2 h3
      subst h2
      subst h3
      simp
    · exact absurd h (by simp)

/-- Completeness of `matchColon`. -/
theorem matchColon_complete (flag : Bool) (r : List Char) :
    matchColon flag ((if flag then [':'] else []) ++ r) =
      some (if flag then [':'] else [], r) := by
  cases flag <;> rfl

/-- Soundness of one clock-time backtracking alternative. -/
theorem matchTimeChoice_sound (a : Nat) (flag : Bool) (b : Nat) (cs m r : List Char)
    (h : matchTimeChoice a flag b cs = some (m, r)) :
    cs = m ++ r ∧ ∃ d1 sep d2 : List Char,
      m = d1 ++ sep ++ d2 ∧ d1.all Char.isDigit = true ∧ d2.all Char.isDigit = true ∧
      d1.length = a ∧ d2.length = b ∧ (sep = [':'] ∨ sep = []) := by
  unfold matchTimeChoice at h
  split at h
  · exact absurd h (by simp)
  next d1 r1 heq1 =>
    split at h
    · exact absurd h (by simp)
    next sep r2 heq2 =>
      split at h
      · exact absurd h (by simp)
      next d2 r3 heq3 =>
        injection h with h4
        injection h4 with h5 h6
        subst h5
        subst h6
        obtain ⟨hc1, hl1, ha1⟩ := takeDigits_sound a cs d1 r1 heq1
        obtain ⟨hc2, hsep⟩ := matchColon_sound flag r1 sep r2 heq2
        obtain ⟨hc3, hl3, ha3⟩ := takeDigits_sound b r2 d2 r3 heq3
        refine ⟨?_, d1, sep, d2, rfl, ha1, ha3, hl1, hl3, hsep⟩
        rw [hc1, hc2, hc3]
        simp [List.append_assoc]

/-- Completeness of one clock-time backtracking alternative. -/
theorem matchTimeChoice_complete (d1 d2 : List Char) (h1 : d1.all Char.isDigit = true)
    (h2 : d2.all Char.isDigit = true) (flag : Bool) (t : List Char) :
    matchTimeChoice d1.length flag d2.length
        ((d1 ++ (if flag then [':'] else []) ++ d2) ++ t) =
      some (d1 ++ (if flag then [':'] else []) ++ d2, t) := by
  unfold matchTimeChoice
  have e1 : (d1 ++ (if flag then [':'] else []) ++ d2) ++ t =
      d1 ++ ((if flag then [':'] else []) ++ (d2 ++ t)) := by
    simp [List.append_assoc]
  rw [e1, takeDigits_complete d1 h1 _]
  simp only [matchColon_complete flag (d2 ++ t), takeDigits_complete d2 h2 t]

/-- Every listed time alternative respects the quantifier bounds of the
pattern. -/
theorem timeChoices_bounds : ∀ t ∈ timeChoices, t.1 ≤ 2 ∧ 1 ≤ t.2.2 ∧ t.2.2 ≤ 2 := by
  decide

/-- Soundness of `timeCands`: every candidate consumed a word of the clock-time
language. -/
theorem timeCands_sound (cs m r : List Char) (h : (m, r) ∈ timeCands cs) :
    cs = m ++ r ∧ isTimeShape m := by
  simp only [timeCands, List.mem_filterMap] at h
  obtain ⟨t, ht, hmt⟩ := h
  obtain ⟨hcs, d1, sep, d2, hm, ha1, ha2, hl1, hl2, hsep⟩ :=
    matchTimeChoice_sound t.1 t.2.1 t.2.2 cs m r hmt
  have hb := timeChoices_bounds t ht
  exact ⟨hcs, d1, sep, d2, hm, ha1, ha2, by omega, by omega, by omega, hsep⟩

/-- Completeness of `timeCands`: every word of the clock-time language is a
candidate, whatever text follows it. -/
theorem timeCands_complete (m : List Char) (hm : isTimeShape m) (t : List Char) :
    (m, t) ∈ timeCands (m ++ t) := by
  obtain ⟨a, sep, b, hp, ha, hb, hal, hbl1, hbl2, hsep⟩ := hm
  have hflag : ∃ flag : Bool, sep = (if flag then [':'] else []) := by
    rcases hsep with h | h
    · exact ⟨true, by simp [h]⟩
    · exact ⟨false, by simp [h]⟩
  obtain ⟨flag, rfl⟩ := hflag
  have hmem : (a.length, flag, b.length) ∈ timeChoices := by
    have h1 : a.length = 0 ∨ a.length = 1 ∨ a.length = 2 := by omega
    have h2 : b.length = 1 ∨ b.length = 2 := by omega
    rcases h1 with h1 | h1 | h1 <;> rcases h2 with h2 | h2 <;>
      rw [h1, h2] <;> cases flag <;> decide
  subst hp
  exact List.mem_filterMap.mpr ⟨(a.length, flag, b.length), hmem,
    matchTimeChoice_complete a b ha hb flag t⟩

/-- Membership in the greedy length countdown. -/
theorem mem_countdown (n m : Nat) : n ∈ countdown m ↔ 1 ≤ n ∧ n ≤ m := by
  simp only [countdown, List.mem_map, List.mem_range]
  constructor
  · rintro ⟨k, hk, rfl⟩
    omega
  · intro hn
    exact ⟨m - n, by omega, by omega⟩

/-- An all-digit block never exceeds the maximal digit run that starts with it. -/
theorem digitRun_ge :
    ∀ d : List Char, d.all Char.isDigit = true →
      ∀ t : List Char, d.length ≤ digitRun (d ++ t) := by
  intro d
  induction d with
  | nil => intro _ t; simp
  | cons c d' ih =>
    intro hall t
    simp only [List.all_cons, Bool.and_eq_true] at hall
    simp only [List.cons_append, digitRun, List.length_cons, List.append_eq]
    rw [if_pos hall.1]
    have := ih hall.2 t
    omega

/-- Soundness of `relCands`. -/
theorem relCands_sound (cs m r : List Char) (h : (m, r) ∈ relCands cs) :
    cs = m ++ r ∧ isRelShape m := by
  cases cs with
  | nil => simp [relCands] at h
  | cons c rest =>
    simp only [relCands] at h
    by_cases hc : c = '+' ∨ c = '-'
    · rw [if_pos hc] at h
      simp only [List.mem_filterMap] at h
      obtain ⟨n, hn, hmt⟩ := h
      cases htd : takeDigits n rest with
      | none => rw [htd] at hmt; exact absurd hmt (by simp)
      | some dr =>
        obtain ⟨d, r'⟩ := dr
        rw [htd] at hmt
        injection hmt with h1
        injection h1 with h2 h3
        subst h2
        subst h3
        obtain ⟨hcs, hlen, hall⟩ := takeDigits_sound n rest d r' htd
        have hone : 1 ≤ n := ((mem_countdown n _).mp hn).1
        refine ⟨by rw [hcs]; rfl, c, d, rfl, hc, hall, by omega⟩
    · rw [if_neg hc] at h
      simp at h

/-- Completeness of `relCands`. -/
theorem relCands_complete (m : List Char) (hm : isRelShape m) (t : List Char) :
    (m, t) ∈ relCands (m ++ t) := by
  obtain ⟨c, d, rfl, hc, hall, hlen⟩ := hm
  simp only [List.cons_append, relCands]
  rw [if_pos hc]
  refine List.mem_filterMap.mpr ⟨d.length, ?_, ?_⟩
  · rw [mem_countdown]
    exact ⟨hlen, digitRun_ge d hall t⟩
  · rw [takeDigits_complete d hall t]

/-- Soundness of `plusCands`. -/
theorem plusCands_sound (cs m r : List Char) (h : (m, r) ∈ plusCands cs) :
    cs = m ++ r ∧ ∃ d, m = '+' :: d ∧ d.all Char.isDigit = true ∧ 1 ≤ d.length := by
  unfold plusCands at h
  split at h
  · rename_i rest
    simp only [List.mem_filterMap] at h
    obtain ⟨n, hn, hmt⟩ := h
    cases htd : takeDigits n rest with
    | none => rw [htd] at hmt; exact absurd hmt (by simp)
    | some dr =>
      obtain ⟨d, r'⟩ := dr
      rw [htd] at hmt
      injection hmt with h1
      injection h1 with h2 h3
      subst h2
      subst h3
      obtain ⟨hcs, hlen, hall⟩ := takeDigits_sound n rest d r' htd
      have hone : 1 ≤ n := ((mem_countdown n _).mp hn).1
      refine ⟨by rw [hcs]; rfl, d, rfl, hall, by omega⟩
  · simp at h

/-- Completeness of `plusCands`. -/
theorem plusCands_complete (d : List Char) (hall : d.all Char.isDigit = true)
    (hlen : 1 ≤ d.length) (t : List Char) :
    ('+' :: d, t) ∈ plusCands (('+' :: d) ++ t) := by
  simp only [List.cons_append, plusCands]
  refine List.mem_filterMap.mpr ⟨d.length, ?_, ?_⟩
  · rw [mem_countdown]
    exact ⟨hlen, digitRun_ge d hall t⟩
  · rw [takeDigits_complete d hall t]

/-- Soundness of the component alternation. -/
theorem compCands_sound (cs m r : List Char) (h : (m, r) ∈ compCands cs) :
    cs = m ++ r ∧ (isTimeShape m ∨ isRelShape m) := by
  rcases List.mem_append.mp h with h | h
  · obtain ⟨hc, hs⟩ := timeCands_sound cs m r h
    exact ⟨hc, Or.inl hs⟩
  · obtain ⟨hc, hs⟩ := relCands_sound cs m r h
    exact ⟨hc, Or.inr hs⟩

/-- Completeness of the component alternation. -/
theorem compCands_complete (m : List Char) (hm : isTimeShape m ∨ isRelShape m)
    (t : List Char) : (m, t) ∈ compCands (m ++ t) := by
  rcases hm with h | h
  · exact List.mem_append.mpr (Or.inl (timeCands_complete m h t))
  · exact List.mem_append.mpr (Or.inr (relCands_complete m h t))

/-- Characterisation of the separator consumer. -/
theorem sepSplit_eq_some (l r : List Char) :
    sepSplit l = some r ↔ l = '.' :: '.' :: r := by
  constructor
  · intro h
    unfold sepSplit at h
    split at h
    · injection h with h1
      subst h1
      rfl
    · exact absurd h (by simp)
  · rintro rfl
    rfl

/-- Soundness of `pattern1`: every match consumed a word of shape 1. -/
theorem pattern1_sound (cs x y r : List Char)
    (h : ((x, y), r) ∈ pattern1 cs) :
    cs = (x ++ '.' :: '.' :: y) ++ r ∧ isShape1 (x ++ '.' :: '.' :: y) := by
  simp only [pattern1, List.mem_flatMap] at h
  obtain ⟨sr, hsr, hmem⟩ := h
  obtain ⟨s1, r1⟩ := sr
  cases hsep : sepSplit r1 with
  | none => rw [hsep] at hmem; simp at hmem
  | some r2 =>
    rw [hsep] at hmem
    simp only [List.mem_map] at hmem
    obtain ⟨ur, hur, heq⟩ := hmem
    obtain ⟨u1, u2⟩ := ur
    injection heq with h1 h2
    injection h1 with h3 h4
    subst h3
    subst h4
    subst h2
    obtain ⟨hc1, hs1⟩ := compCands_sound cs s1 r1 hsr
    obtain ⟨hc2, hs2⟩ := compCands_sound r2 u1 u2 hur
    have hr1 : r1 = '.' :: '.' :: r2 := (sepSplit_eq_some r1 r2).mp hsep
    constructor
    · rw [hc1, hr1, hc2]
      simp [List.append_assoc]
    · exact ⟨s1, u1, rfl, hs1, hs2⟩

/-- Completeness of `pattern1`: every word of shape 1 is matched, whatever text
follows it. -/
theorem pattern1_complete (x y : List Char) (hx : isTimeShape x ∨ isRelShape x)
    (hy : isTimeShape y ∨ isRelShape y) (t : List Char) :
    ((x, y), t) ∈ pattern1 ((x ++ '.' :: '.' :: y) ++ t) := by
  have e1 : (x ++ '.' :: '.' :: y) ++ t = x ++ ('.' :: '.' :: (y ++ t)) := by
    simp [List.append_assoc]
  rw [e1]
  simp only [pattern1, List.mem_flatMap]
  refine ⟨(x, '.' :: '.' :: (y ++ t)), compCands_complete x hx _, ?_⟩
  have hsep : sepSplit ('.' :: '.' :: (y ++ t)) = some (y ++ t) := rfl
  rw [hsep]
  simp only [List.mem_map]
  exact ⟨(y, t), compCands_complete y hy t, rfl⟩

/-- Soundness of `pattern2`. -/
theorem pattern2_sound (cs x pu r : List Char)
    (h : ((x, pu), r) ∈ pattern2 cs) :
    cs = (x ++ pu) ++ r ∧ isShape2 (x ++ pu) := by
  simp only [pattern2, List.mem_flatMap] at h
  obtain ⟨sr, hsr, hmem⟩ := h
  obtain ⟨s1, r1⟩ := sr
  simp only [List.mem_map] at hmem
  obtain ⟨ur, hur, heq⟩ := hmem
  obtain ⟨u1, u2⟩ := ur
  injection heq with h1 h2
  injection h1 with h3 h4
  subst h3
  subst h4
  subst h2
  obtain ⟨hc1, hs1⟩ := timeCands_sound cs s1 r1 hsr
  obtain ⟨hc2, d, hd, hall, hlen⟩ := plusCands_sound r1 u1 u2 hur
  constructor
  · rw [hc1, hc2]
    simp [List.append_assoc]
  · exact ⟨s1, d, by rw [hd], hs1, hall, hlen⟩

/-- Completeness of `pattern2`. -/
theorem pattern2_complete (x d : List Char) (hx : isTimeShape x)
    (hall : d.all Char.isDigit = true) (hlen : 1 ≤ d.length) (t : List Char) :
    ((x, '+' :: d), t) ∈ pattern2 ((x ++ '+' :: d) ++ t) := by
  have e1 : (x ++ '+' :: d) ++ t = x ++ (('+' :: d) ++ t) := by
    simp [List.append_assoc]
  rw [e1]
  simp only [pattern2, List.mem_flatMap]
  refine ⟨(x, ('+' :: d) ++ t), timeCands_complete x hx _, ?_⟩
  simp only [List.mem_map]
  exact ⟨('+' :: d, t), plusCands_complete d hall hlen t, rfl⟩

/-- Claim C10: the bound-expression extractor fails only when no prefix of the
input is a word of one of the three shapes — `re.match` anchors at the start of
the input but not at its end — so an input consisting of a matching prefix plus
extra text is accepted with the extra text silently ignored; in particular
"14:00..15:30tail" yields the same since/until bounds as "14:00..15:30". -/
theorem C10_trailing_text_ignored :
    (∀ spec : List Char,
        extract_date_time_bounds spec = .error (parse_error_msg spec) ↔
          ¬∃ p t : List Char, spec = p ++ t ∧ (isShape1 p ∨ isShape2 p ∨ isShape3 p))
    ∧ extract_date_time_bounds ("14:00..15:30tail".toList) =
        extract_date_time_bounds ("14:00..15:30".toList)
    ∧ extract_date_time_bounds ("14:00..15:30tail".toList) =
        .ok { since := some ("14:00".toList), untl := some ("15:30".toList) } := by
  refine ⟨?_, ?_, ?_⟩
  · intro spec
    constructor
    · intro herr hex
      obtain ⟨p, t, hspec, hk⟩ := hex
      have h1 : pattern1 spec = [] := by
        cases hp : pattern1 spec with
        | nil => rfl
        | cons e es =>
          obtain ⟨⟨s', u'⟩, r'⟩ := e
          unfold extract_date_time_bounds at herr
          rw [hp] at herr
          exact absurd herr (by simp)
      have h2 : pattern2 spec = [] := by
        cases hp : pattern2 spec with
        | nil => rfl
        | cons e es =>
          obtain ⟨⟨s', u'⟩, r'⟩ := e
          unfold extract_date_time_bounds at herr
          rw [h1, hp] at herr
          exact absurd herr (by simp)
      have h3 : pattern3 spec = [] := by
        cases hp : pattern3 spec with
        | nil => rfl
        | cons e es =>
          obtain ⟨s', r'⟩ := e
          unfold extract_date_time_bounds at herr
          rw [h1, h2, hp] at herr
          exact absurd herr (by simp)
      rcases hk with hk | hk | hk
      · obtain ⟨x, y, rfl, hx, hy⟩ := hk
        have hmem := pattern1_complete x y hx hy t
        rw [← hspec, h1] at hmem
        simp at hmem
      · obtain ⟨x, d, rfl, hx, hall, hlen⟩ := hk
        have hmem := pattern2_complete x d hx hall hlen t
        rw [← hspec, h2] at hmem
        simp at hmem
      · have hmem := relCands_complete p hk t
        have h3' : relCands spec = [] := h3
        rw [← hspec, h3'] at hmem
        simp at hmem
    · intro hno
      unfold extract_date_time_bounds
      cases hp1 : pattern1 spec with
      | cons e es =>
        exfalso
        obtain ⟨⟨x, y⟩, r⟩ := e
        have hmem : ((x, y), r) ∈ pattern1 spec := by
          rw [hp1]; exact List.mem_cons_self _ _
        obtain ⟨hc, hs⟩ := pattern1_sound spec x y r hmem
        exact hno ⟨x ++ '.' :: '.' :: y, r, hc, Or.inl hs⟩
      | nil =>
        cases hp2 : pattern2 spec with
        | cons e es =>
          exfalso
          obtain ⟨⟨x, pu⟩, r⟩ := e
          have hmem : ((x, pu), r) ∈ pattern2 spec := by
            rw [hp2]; exact List.mem_cons_self _ _
          obtain ⟨hc, hs⟩ := pattern2_sound spec x pu r hmem
          exact hno ⟨x ++ pu, r, hc, Or.inr (Or.inl hs)⟩
        | nil =>
          cases hp3 : pattern3 spec with
          | cons e es =>
            exfalso
            obtain ⟨s', r⟩ := e
            have hmem : (s', r) ∈ relCands spec := by
              have h3' : relCands spec = pattern3 spec := rfl
              rw [h3', hp3]
              exact List.mem_cons_self _ _
            obtain ⟨hc, hs⟩ := relCands_sound spec s' r hmem
            exact hno ⟨s', r, hc, Or.inr (Or.inr hs)⟩
          | nil => rfl
  · rfl
  · rfl

end Timetra
